import Mathlib

/-!
A verification model of the program `codetrawl.py`.

This file gives a shallow embedding, in Lean 4, of the result-set
reconciliation core of the `codetrawl` program (`codetrawl.py`): the
resilient HTTP fetcher `_get`, the GitHub HTML scraper `search_github`
and its helper `_github_search_timed_out`, the searchcode JSON scraper
`search_searchcode`, and the emitter `dump_all_matches`.

Modelling conventions:

* Python strings are modelled as `List Char` (`Str` below); the handful
  of string operations the source uses (`in`, `str.replace`,
  `str.split("#")[0]`, `int(...)` and the three regular expressions) are
  implemented directly on `Str`.
* The network is an oracle passed in as a function: for the scrapers it
  maps a fetch to the already-parsed page (lxml parsing of well-formed
  HTTP responses is environment work), for `_get` it is the list of
  attempt outcomes, for the emitter it maps a URL to a fetch outcome.
* Generators are modelled as fuel-indexed run functions that accumulate
  the list of yielded matches; `while True:` loops consume one unit of
  fuel per iteration and report `fuelOut` when the fuel ends while the
  loop would continue.
* Writes to `sys.stderr` are accumulated as a list of structured
  diagnostics (`Diag`); raised exceptions become a `fatal`/`raised`
  outcome carrying a structured reason (`Fatal`).
-/

namespace Codetrawl

/-- Python strings are modelled as lists of characters. -/
abbrev Str := List Char

/-- Python's substring test `needle in haystack`. -/
def strContains (haystack needle : Str) : Bool :=
  haystack.tails.any (fun t => needle.isPrefixOf t)

/-- Fuel-driven worker for `pyReplace`; fuel `s.length` always suffices
because each step consumes at least one character of `s` when the
pattern is nonempty. -/
def pyReplaceFuel (pat rep : Str) : ℕ → Str → Str
  | 0, s => s
  | _ + 1, [] => []
  | fuel + 1, c :: rest =>
    if pat ≠ [] ∧ pat.isPrefixOf (c :: rest) then
      rep ++ pyReplaceFuel pat rep fuel ((c :: rest).drop pat.length)
    else
      c :: pyReplaceFuel pat rep fuel rest

/-- Python's `s.replace(pat, rep)`: replace every (leftmost,
non-overlapping) occurrence of `pat` in `s` by `rep`.  The source only
uses nonempty patterns (`"/blob/"`, `"/view/"`, `","`). -/
def pyReplace (s pat rep : Str) : Str :=
  pyReplaceFuel pat rep s.length s

/-- Python's `url.split("#")[0]`: everything before the first `#`. -/
def stripFragment (s : Str) : Str :=
  s.takeWhile (fun c => c ≠ '#')

/-- A character of the regex class `[0-9,]`. -/
def isCountChar (c : Char) : Bool :=
  c.isDigit || c = ','

/-- Try to match the regex `found (?P<count>[0-9,]+) code results` at
the start of `s`; on success return the text of the `count` group and
the remainder of `s` after the whole match.  The greedy `[0-9,]+` can
be realised by `takeWhile` because the following literal starts with a
space, which is not in the class. -/
def matchCountAt (s : Str) : Option (Str × Str) :=
  if "found ".data.isPrefixOf s then
    let t := s.drop 6
    let digits := t.takeWhile isCountChar
    let rest := t.drop digits.length
    if digits ≠ [] ∧ " code results".data.isPrefixOf rest then
      some (digits, rest.drop 13)
    else
      none
  else
    none

/-- Fuel-driven worker for `findCounts` (fuel `s.length` suffices: every
step consumes at least one character). -/
def findCountsFuel : ℕ → Str → List Str
  | 0, _ => []
  | _ + 1, [] => []
  | fuel + 1, c :: rest =>
    match matchCountAt (c :: rest) with
    | some (digits, after) => digits :: findCountsFuel fuel after
    | none => findCountsFuel fuel rest

/-- Model of `github_count_re.finditer(text)`: the `count` groups of all
leftmost, non-overlapping matches of
`found (?P<count>[0-9,]+) code results` in `text`, in order. -/
def findCounts (s : Str) : List Str :=
  findCountsFuel s.length s

/-- Model of `int(count_str.replace(",", ""))`: strip the commas and read a
decimal numeral.  `none` models the `ValueError` that `int("")` raises
when the matched group consists of commas only. -/
def countValue? (digits : Str) : Option ℕ :=
  let ds := digits.filter (fun c => c ≠ ',')
  if ds = [] then none
  else some (ds.foldl (fun n c => 10 * n + (c.toNat - 48)) 0)

/-- Does `Showing [0-9,]+ available code` (the compiled
`_github_partial_count_re`) match at the start of `s`? -/
def matchShowingAt (s : Str) : Bool :=
  "Showing ".data.isPrefixOf s &&
    (let t := s.drop 8
     let digits := t.takeWhile isCountChar
     digits ≠ [] && " available code".data.isPrefixOf (t.drop digits.length))

/-- Model of `_github_partial_count_re.search(text)`: does the pattern match
anywhere in `text`? -/
def showingSearch (s : Str) : Bool :=
  s.tails.any matchShowingAt

/-- The no-results phrase `We couldn’t find any code matching`
(the apostrophe is U+2019). -/
def zeroPhrase : Str :=
  "We couldn".data ++ [Char.ofNat 8217] ++ "t find any code matching".data

/-- The help-link fragment whose presence in an `<h3>` link target marks
a server-side search timeout. -/
def timeoutLinkFragment : Str :=
  "searching-github#potential-timeouts".data

/-- An `<h3>` element of a GitHub search-results page, reduced to the
two features the scraper reads: the (absolutised) targets of the `<a>`
elements below it, and its text content. -/
structure H3 where
  links : List Str
  text : Str
deriving DecidableEq, Repr

/-- One GitHub search-results page, reduced to what `search_github`
reads from the parsed tree: the `<h3>` headings and the link targets
inside the single `#code_search_results > .code-list` div (the source
asserts, by tuple unpacking, that this div is unique; a page lacking it
is outside the wire contract and not modelled). -/
structure GHPage where
  h3s : List H3
  resultLinks : List Str
deriving DecidableEq, Repr

/-- Structured stand-ins for the exceptions the source can raise. -/
inductive Fatal
  /-- The `AssertionError("bwuh? contradictory results ...")` raised
  in `_github_search_timed_out`. -/
  | timedOutContradiction
  /-- The `RuntimeError("Search timed-out on server side 3x in a row ...")`. -/
  | tooUnstable
  /-- The `RuntimeError("Too many hits! ...")` for a reported count over 1000. -/
  | tooManyHits (count : ℕ)
  /-- The `ValueError` from `int` on a count group with no digits. -/
  | valueError
  /-- Failure of `assert page == 1` next to the no-results phrase,
  recording the value the cursor had. -/
  | zeroPhraseAssert (page : ℕ)
  /-- The `RuntimeError` for a number of count strings other than 1. -/
  | scraperBroken (foundCount : ℕ)
  /-- The `RuntimeError("Too many results")` in `search_searchcode`. -/
  | tooManyResults
  /-- An uncaught `requests.HTTPError` with the given status. -/
  | httpError (status : ℕ)
  /-- The `NameError` when `dump_all_matches` reads `r` although no
  assignment to it has executed. -/
  | nameErrorR
deriving DecidableEq, Repr

/-- Structured stand-ins for the lines the source writes to `stderr`. -/
inductive Diag
  /-- The request-timing line from `_get`. -/
  | requestTiming (elapsed backoffs : ℕ)
  /-- The still-missing-hits line written by `search_github` when the
  cursor wraps back to page 1. -/
  | missingHits (missing total : ℕ)
  /-- The per-match progress line from `dump_all_matches`. -/
  | fetchingFile (index : ℕ)
  /-- The content-fetch error line from `dump_all_matches`. -/
  | fetchError (url : Str)
  /-- The bare newline written when `dump_all_matches` finishes. -/
  | blankLine
deriving DecidableEq, Repr

/-- Model of `_github_search_timed_out(tree)`: walk the `<h3>` elements in
order; an `<h3>` containing a link to the potential-timeouts help page
means the search timed out server side (`true`); otherwise an `<h3>`
whose text matches `_github_partial_count_re` raises the contradiction
`AssertionError`; falling off the loop returns Python `None`, which the
caller treats as `false`. -/
def githubSearchTimedOut : List H3 → Except Fatal Bool
  | [] => .ok false
  | h3 :: rest =>
    if h3.links.any (fun l => strContains l timeoutLinkFragment) then
      .ok true
    else if showingSearch h3.text then
      .error .timedOutContradiction
    else
      githubSearchTimedOut rest

/-- A character of the regex class `[0-9a-f]`. -/
def isLowerHex (c : Char) : Bool :=
  c.isDigit || ('a' ≤ c && c ≤ 'f')

/-- Does `s` start with `/blob/`, then exactly 40 characters of
`[0-9a-f]`, then `/` (the middle of `result_url_re`)? -/
def ghBlobAt (s : Str) : Bool :=
  "/blob/".data.isPrefixOf s &&
    (let h := (s.drop 6).take 40
     h.length = 40 && h.all isLowerHex && "/".data.isPrefixOf (s.drop 46))

/-- Try to split `t` (the part after `https://github.com/`) at repo
length `i`: the repo group may not cross a newline (`.` of `re`), and
must be followed by `/blob/`, 40 hex characters and `/`.  The path
group is the greedy `.*` after that: everything up to the next newline
(`re.match` does not anchor the end). -/
def ghSplitAt (t : Str) (i : ℕ) : Option (Str × Str) :=
  if (t.take i).all (fun c => c ≠ '\n') && ghBlobAt (t.drop i) then
    some (t.take i, ((t.drop i).drop 47).takeWhile (fun c => c ≠ '\n'))
  else
    none

/-- Greedy matching of the repo group: try the longest repo first,
scanning split points from `i` down to `0`. -/
def ghSearchSplit (t : Str) : ℕ → Option (Str × Str)
  | 0 => ghSplitAt t 0
  | i + 1 =>
    match ghSplitAt t (i + 1) with
    | some r => some r
    | none => ghSearchSplit t i

/-- Model of `result_url_re.match(url)` for
`https://github.com/(?P<repo>.*)/blob/[0-9a-f]{40}/(?P<path>.*)`:
on success, the `(repo, path)` groups. -/
def ghUrlMatch (url : Str) : Option (Str × Str) :=
  if "https://github.com/".data.isPrefixOf url then
    let t := url.drop 19
    ghSearchSplit t t.length
  else
    none

/-- A match descriptor as yielded by the two search generators:
the `{"repo": ..., "path": ..., "raw_url": ...}` dict. -/
structure Match where
  repo : Str
  path : Str
  raw_url : Str
deriving DecidableEq, Repr

/-- The body of the result-link loop of `search_github` for one link
target: strip the fragment, match `result_url_re`, and on success
build the match dict, with `raw_url` the fragment-stripped URL with
`/blob/` replaced by `/raw/`. -/
def githubLinkMatch (url0 : Str) : Option Match :=
  let url := stripFragment url0
  match ghUrlMatch url with
  | some (rep, pth) =>
    some { repo := "github:".data ++ rep
         , path := pth
         , raw_url := pyReplace url "/blob/".data "/raw/".data }
  | none => none

/-- The result-link loop of `search_github` over the link targets of
the results div: returns the updated `hits` set (modelled as the list
of members, newest first) and the matches yielded, in order.  A match
is yielded exactly when its `raw_url` was not yet in `hits`, and is
added to `hits` when yielded. -/
def githubCollect (hits : List Str) : List Str → List Str × List Match
  | [] => (hits, [])
  | url :: rest =>
    match githubLinkMatch url with
    | none => githubCollect hits rest
    | some m =>
      if m.raw_url ∈ hits then
        githubCollect hits rest
      else
        let r := githubCollect (m.raw_url :: hits) rest
        (r.1, m :: r.2)

/-- The loop state of `search_github`: the `hits` set (as the list of
its members), the page cursor `page`, and `server_side_timeouts`. -/
structure GHState where
  hits : List Str
  page : ℕ
  timeouts : ℕ
deriving DecidableEq, Repr

/-- The state `search_github` starts from: empty `hits`, page 1, no
timeouts. -/
def ghInit : GHState :=
  { hits := [], page := 1, timeouts := 0 }

/-- Outcome of the `for h3 in tree.cssselect("h3")` scanning loop of
`search_github`: an early `return`, a raised exception, or falling
through with the updated page cursor and `found_count`, together with
the diagnostics written along the way. -/
inductive H3Scan
  | exitReturn (diags : List Diag)
  | exitFatal (e : Fatal) (diags : List Diag)
  | through (page foundCount : ℕ) (diags : List Diag)
deriving DecidableEq, Repr

/-- The `for match in github_count_re.finditer(text)` loop over the
count groups found in one heading: each one is parsed with `int`
(`ValueError` if it has no digits), `found_count` is incremented, a
count over 1000 raises, a count already covered by `hits` returns, and
otherwise the cursor either wraps to page 1 (writing the missing-hits
diagnostic) when it sits on the last page implied by the count, or
advances by one. -/
def countLoop (hitsLen : ℕ) : List Str → ℕ → ℕ → List Diag → H3Scan
  | [], page, fc, ds => .through page fc ds
  | digits :: rest, page, fc, ds =>
    match countValue? digits with
    | none => .exitFatal .valueError ds
    | some count =>
      let fc := fc + 1
      if 1000 < count then .exitFatal (.tooManyHits count) ds
      else if count ≤ hitsLen then .exitReturn ds
      else
        let totalPages := count / 10 + (if count % 10 ≠ 0 then 1 else 0)
        if page = totalPages then
          countLoop hitsLen rest 1 fc
            (ds ++ [Diag.missingHits (count - hitsLen) count])
        else
          countLoop hitsLen rest (page + 1) fc ds

/-- The `for h3 ...` loop of `search_github`: for each heading, run the
count loop over its count matches, then — with the cursor as just
updated — test for the no-results phrase, whose presence asserts
`page == 1` and returns. -/
def h3Loop (hitsLen : ℕ) : List H3 → ℕ → ℕ → List Diag → H3Scan
  | [], page, fc, ds => .through page fc ds
  | h3 :: rest, page, fc, ds =>
    match countLoop hitsLen (findCounts h3.text) page fc ds with
    | .exitReturn ds' => .exitReturn ds'
    | .exitFatal e ds' => .exitFatal e ds'
    | .through page' fc' ds' =>
      if strContains h3.text zeroPhrase then
        if page' = 1 then .exitReturn ds'
        else .exitFatal (.zeroPhraseAssert page') ds'
      else
        h3Loop hitsLen rest page' fc' ds'

/-- What one iteration of the `while True` loop of `search_github` does
next: continue with a new state, `return`, or raise. -/
inductive GHOut
  | next (st : GHState)
  | done
  | fatal (e : Fatal)
deriving DecidableEq, Repr

/-- The full result of one iteration of `search_github`'s loop: the
control outcome, the matches yielded during the iteration, and the
diagnostics written. -/
structure GHStepRes where
  out : GHOut
  yields : List Match
  diags : List Diag
deriving DecidableEq, Repr

/-- One iteration of `search_github`'s `while True` loop on the fetched
page `pg`: the timed-out test (raise / retry the same page with the
timeout counter bumped, failing hard at 3 / reset the counter), the
heading scan, the `found_count != 1` assertion, and finally the
result-link loop that registers and yields the new matches. -/
def githubStep (st : GHState) (pg : GHPage) : GHStepRes :=
  match githubSearchTimedOut pg.h3s with
  | .error e => ⟨.fatal e, [], []⟩
  | .ok true =>
    if 3 ≤ st.timeouts + 1 then ⟨.fatal .tooUnstable, [], []⟩
    else ⟨.next { st with timeouts := st.timeouts + 1 }, [], []⟩
  | .ok false =>
    match h3Loop st.hits.length pg.h3s st.page 0 [] with
    | .exitReturn ds => ⟨.done, [], ds⟩
    | .exitFatal e ds => ⟨.fatal e, [], ds⟩
    | .through page' fc ds =>
      if fc ≠ 1 then ⟨.fatal (.scraperBroken fc), [], ds⟩
      else
        let r := githubCollect st.hits pg.resultLinks
        ⟨.next { hits := r.1, page := page', timeouts := 0 }, r.2, ds⟩

/-- How a fuel-bounded run of a scan generator ended: the generator
returned, an exception propagated, or the fuel ran out while the loop
was still going. -/
inductive RunEnd
  | done
  | fatal (e : Fatal)
  | fuelOut
deriving DecidableEq, Repr

/-- The observable outcome of running `search_github` for a bounded
number of loop iterations: the matches yielded, the diagnostics
written, the number of page fetches performed, and how the run ended. -/
structure GHRunRes where
  yields : List Match
  diags : List Diag
  fetches : ℕ
  outcome : RunEnd
deriving DecidableEq, Repr

/-- Run `search_github`'s `while True` loop for at most `fuel`
iterations from state `st`.  The backend oracle maps the index `i` of
the fetch (how many fetches happened before it this scan) and the
requested page number to the served page; a stable backend ignores
`i`. -/
def githubRun (backend : ℕ → ℕ → GHPage) : ℕ → GHState → ℕ → GHRunRes
  | 0, _, _ => ⟨[], [], 0, .fuelOut⟩
  | fuel + 1, st, i =>
    let res := githubStep st (backend i st.page)
    match res.out with
    | .done => ⟨res.yields, res.diags, 1, .done⟩
    | .fatal e => ⟨res.yields, res.diags, 1, .fatal e⟩
    | .next st' =>
      let rest := githubRun backend fuel st' (i + 1)
      ⟨res.yields ++ rest.yields, res.diags ++ rest.diags,
       rest.fetches + 1, rest.outcome⟩

/-- One entry of the searchcode JSON payload's `results` array. -/
structure SCResult where
  repo : Str
  location : Str
  filename : Str
  url : Str
deriving DecidableEq, Repr

/-- A parsed searchcode JSON payload: the echoed page number and the
`results` array.  (HTTP-level failures of the page fetch raise out of
`_get`/`raise_for_status` before any of the modelled logic runs and
are environment behaviour here.) -/
structure SCPage where
  page : ℕ
  results : List SCResult
deriving DecidableEq, Repr

/-- The match dict `search_searchcode` builds from one result entry:
`repo` verbatim, `path = location + "/" + filename`, and `raw_url` the
entry's `url` with `/view/` replaced by `/raw/`. -/
def scMatch (r : SCResult) : Match :=
  { repo := r.repo
  , path := r.location ++ "/".data ++ r.filename
  , raw_url := pyReplace r.url "/view/".data "/raw/".data }

/-- The observable outcome of running `search_searchcode` for a bounded
number of iterations: the matches yielded, the pages requested in
order, the number of fetches, and how the run ended. -/
structure SCRunRes where
  yields : List Match
  pagesRequested : List ℕ
  fetches : ℕ
  outcome : RunEnd
deriving DecidableEq, Repr

/-- Run `search_searchcode`'s `while True` loop for at most `fuel`
iterations with the cursor at `page`.  The backend oracle maps the
requested (zero-based) page number to the parsed payload.  Each
iteration: fetch, raise `RuntimeError("Too many results")` if the
echoed page differs from the requested one, advance the cursor by one,
`break` on an empty results array, otherwise yield the page's
matches. -/
def searchcodeRun (backend : ℕ → SCPage) : ℕ → ℕ → SCRunRes
  | 0, _ => ⟨[], [], 0, .fuelOut⟩
  | fuel + 1, page =>
    let payload := backend page
    if payload.page ≠ page then
      ⟨[], [page], 1, .fatal .tooManyResults⟩
    else if payload.results = [] then
      ⟨[], [page], 1, .done⟩
    else
      let rest := searchcodeRun backend fuel (page + 1)
      ⟨payload.results.map scMatch ++ rest.yields,
       page :: rest.pagesRequested, rest.fetches + 1, rest.outcome⟩

/-- One attempt of `session.get` inside `_get`, as the environment
resolves it: a `requests.exceptions.ConnectionError` after `dur`
time-units, or a response with the given status code after `dur`
time-units. -/
inductive Attempt
  | connError (dur : ℕ)
  | resp (status : ℕ) (dur : ℕ)
deriving DecidableEq, Repr

/-- The loop state of `_get`: the current `pause`, the `backoffs`
counter, the time elapsed since `start`, and (as an environment trace)
the durations passed to `time.sleep`, in order. -/
structure GetState where
  pause : ℕ
  backoffs : ℕ
  elapsed : ℕ
  sleeps : List ℕ
deriving DecidableEq, Repr

/-- The state `_get` starts in: `pause = 1`, no backoffs, no time
elapsed. -/
def getInit : GetState :=
  { pause := 1, backoffs := 0, elapsed := 0, sleeps := [] }

/-- How a run of `_get` on a finite list of attempt outcomes ends:
a successful return (with the diagnostics written), an exception from
`raise_for_status`, or the attempts exhausted while the loop is still
retrying (the loop itself retries forever). -/
inductive GetRes
  | success (elapsed backoffs : ℕ) (diags : List Diag)
  | raised (status : ℕ) (elapsed backoffs : ℕ)
  | looping (st : GetState)
deriving DecidableEq, Repr

/-- Model of `_get`, driven by the finite list of outcomes the environment gives
to its successive `session.get` calls.  A connection error or a 429
response sleeps `pause`, doubles it, bumps `backoffs` and retries; any
other response of status 400–599 raises out of `raise_for_status`
immediately; otherwise the call returns, writing the timing diagnostic
exactly when there was a backoff or more than 3 time-units elapsed. -/
def getRun : List Attempt → GetState → GetRes
  | [], st => .looping st
  | .connError d :: rest, st =>
    getRun rest ⟨st.pause * 2, st.backoffs + 1,
                 st.elapsed + d + st.pause, st.sleeps ++ [st.pause]⟩
  | .resp s d :: rest, st =>
    if s = 429 then
      getRun rest ⟨st.pause * 2, st.backoffs + 1,
                   st.elapsed + d + st.pause, st.sleeps ++ [st.pause]⟩
    else if 400 ≤ s ∧ s < 600 then
      .raised s (st.elapsed + d) st.backoffs
    else
      .success (st.elapsed + d) st.backoffs
        (if 0 < st.backoffs ∨ 3 < st.elapsed + d then
          [Diag.requestTiming (st.elapsed + d) st.backoffs]
        else [])

/-- How the environment resolves the single `_get(session,
match["raw_url"])` call of `dump_all_matches` for one match: the
response content, or a `requests.HTTPError` with the given status
(`_get` retries connection errors and 429s internally and so never
surfaces them). -/
inductive FetchRes
  | content (c : Str)
  | httpError (status : ℕ)
deriving DecidableEq, Repr

/-- An output record of `dump_all_matches`: the match dict mutated in
place with `service`, `query` and `content` added, as serialised to one
line of the output stream. -/
structure Record where
  service : Str
  query : Str
  repo : Str
  path : Str
  raw_url : Str
  content : Str
deriving DecidableEq, Repr

/-- How a run of `dump_all_matches` over a match list ended: normally,
or by an uncaught exception. -/
inductive DumpEnd
  | ok
  | crashed (e : Fatal)
deriving DecidableEq, Repr

/-- The `for i, match in enumerate(...)` loop of `dump_all_matches`.
`lastContent` is the content of the last response assigned to `r`, or
`none` while `r` is still unassigned.  On a fetch that raises
`requests.HTTPError` the handler writes the error diagnostic — and
then falls through to `match["content"] = r.content`: a `NameError` if
`r` was never assigned, otherwise a record carrying the previous
response's content.  (The `json.dumps` encoding and its no-newline
assertion are serialisation of the record and are not modelled.) -/
def dumpLoop (service query : Str) (fetch : Str → FetchRes) :
    List Match → Option Str → ℕ → List Record × List Diag × DumpEnd
  | [], _, _ => ([], [Diag.blankLine], .ok)
  | m :: rest, lastContent, i =>
    let progress := Diag.fetchingFile (i + 1)
    match fetch m.raw_url with
    | .content c =>
      let r := dumpLoop service query fetch rest (some c) (i + 1)
      (⟨service, query, m.repo, m.path, m.raw_url, c⟩ :: r.1,
       progress :: r.2.1, r.2.2)
    | .httpError _ =>
      match lastContent with
      | none => ([], [progress, Diag.fetchError m.raw_url], .crashed .nameErrorR)
      | some c =>
        let r := dumpLoop service query fetch rest (some c) (i + 1)
        (⟨service, query, m.repo, m.path, m.raw_url, c⟩ :: r.1,
         progress :: Diag.fetchError m.raw_url :: r.2.1, r.2.2)

/-- Model of `dump_all_matches` for a given already-produced match sequence:
run the loop with `r` initially unassigned. -/
def dumpAllMatches (service query : Str) (fetch : Str → FetchRes)
    (ms : List Match) : List Record × List Diag × DumpEnd :=
  dumpLoop service query fetch ms none 0

/-- Is this attempt outcome one `_get` retries (a connection error or a
429 response)?  Used to state the fetcher's retry property. -/
def Attempt.retriable : Attempt → Bool
  | .connError _ => true
  | .resp s _ => s == 429

/-- The duration of an attempt, used to state elapsed-time facts. -/
def Attempt.dur : Attempt → ℕ
  | .connError d => d
  | .resp _ d => d

/-- A well-formed GitHub result link for the stable-backend example:
repo `r`, a 40-`a` commit hash, and a one-character path determined by
`i`. -/
def exUrl (i : ℕ) : Str :=
  "https://github.com/r/blob/aaaaaaaaaaaaaaaaaaaaaaaaaaaaaaaaaaaaaaaa/".data
    ++ [Char.ofNat (65 + i)]

/-- The raw URL `search_github` derives from `exUrl i`. -/
def exRawUrl (i : ℕ) : Str :=
  "https://github.com/r/raw/aaaaaaaaaaaaaaaaaaaaaaaaaaaaaaaaaaaaaaaa/".data
    ++ [Char.ofNat (65 + i)]

/-- The match `search_github` yields for `exUrl i`. -/
def exMatch (i : ℕ) : Match :=
  ⟨"github:r".data, [Char.ofNat (65 + i)], exRawUrl i⟩

/-- A results heading reporting a count of 25. -/
def countH3 : H3 :=
  ⟨[], "found 25 code results".data⟩

/-- A stable-backend results page: the count-25 heading plus `n` result
links starting at `exUrl lo`. -/
def exPage (lo n : ℕ) : GHPage :=
  ⟨[countH3], (List.range n).map (fun j => exUrl (lo + j))⟩

/-- The stable fake backend of the spec's example: total 25 reported on
every page, 10 items on page 1, 10 on page 2, 5 on page 3 (and page-1
content for any other requested page), independent of the fetch
index. -/
def exBackend (_i p : ℕ) : GHPage :=
  if p = 2 then exPage 10 10 else if p = 3 then exPage 20 5 else exPage 0 10

/-- A heading carrying the no-results phrase (and nothing else). -/
def zeroH3 : H3 :=
  ⟨[], "xy".data ++ zeroPhrase ++ " q".data⟩

/-- A page whose only completion signal is the no-results phrase. -/
def zeroPage : GHPage :=
  ⟨[zeroH3], []⟩

/-- A page carrying both a count heading (count 5) and the no-results
phrase. -/
def bothPage5 : GHPage :=
  ⟨[⟨[], "found 5 code results".data⟩, zeroH3], []⟩

/-- A page carrying both a count heading (count 15) and the no-results
phrase. -/
def bothPage15 : GHPage :=
  ⟨[⟨[], "found 15 code results".data⟩, zeroH3], []⟩

/-- A page whose heading links to the potential-timeouts help page and
shows the partial count, as on a real timed-out results page. -/
def timedOutPage : GHPage :=
  ⟨[⟨["https://help.github.com/articles/searching-github#potential-timeouts".data],
     "Showing 2,948 available code results".data⟩], []⟩

/-- A page with one count heading (count 5) and no result links. -/
def oneCountPage : GHPage :=
  ⟨[⟨[], "found 5 code results".data⟩], []⟩

/-- A page whose single heading reports 1,001 results. -/
def bigCountPage : GHPage :=
  ⟨[⟨[], "found 1,001 code results".data⟩], []⟩

/-- A page with a count-1 heading and the single result link
`exUrl 0`. -/
def oneHitPage : GHPage :=
  ⟨[⟨[], "found 1 code results".data⟩], [exUrl 0]⟩

/-- A stable single-page backend page: count 5 reported, links for the
5 items `exUrl 0 .. exUrl 4`. -/
def exPage5 : GHPage :=
  ⟨[⟨[], "found 5 code results".data⟩], (List.range 5).map exUrl⟩

/-- The `i`-th result entry of the fake searchcode backend. -/
def scExResult (i : ℕ) : SCResult :=
  ⟨"rep".data, "loc".data, Nat.toDigits 10 i,
   "https://searchcode.com/codesearch/view/".data ++ Nat.toDigits 10 i⟩

/-- The fake searchcode backend of the spec's example: page 0 echoes 0
with 100 results, page 1 echoes 1 with no results. -/
def scExBackend (p : ℕ) : SCPage :=
  if p = 0 then ⟨0, (List.range 100).map scExResult⟩ else ⟨p, []⟩

/-- A searchcode backend whose first page repeats the same result
twice. -/
def scDupBackend (p : ℕ) : SCPage :=
  if p = 0 then ⟨0, [scExResult 0, scExResult 0]⟩ else ⟨p, []⟩

/-- Fixtures for `dump_all_matches`: two matches, a fetch oracle that
succeeds on the first match's URL only. -/
def dumpM1 : Match := ⟨"r1".data, "p1".data, "u1".data⟩

/-- The second emitter fixture match; its content fetch fails. -/
def dumpM2 : Match := ⟨"r2".data, "p2".data, "u2".data⟩

/-- The emitter fixture fetch oracle: content `AAA` for `u1`, HTTP 404
for every other URL. -/
def dumpFetch : Str → FetchRes :=
  fun u => if u = "u1".data then .content "AAA".data else .httpError 404

set_option maxRecDepth 10000

/-- After a block of retriable attempts, `_get` is still in its loop,
with `pause` doubled once per attempt, `backoffs` counting the
attempts, the sleeps `2^k, 2^(k+1), ...` performed in order, and the
elapsed time the attempt durations plus the sleeps. -/
theorem getRun_retriable_prefix (l rest : List Attempt) :
    ∀ (k e : ℕ) (sl : List ℕ), (∀ a ∈ l, a.retriable = true) →
      getRun (l ++ rest) ⟨2 ^ k, k, e, sl⟩ =
        getRun rest ⟨2 ^ (k + l.length), k + l.length,
          e + (l.map Attempt.dur).sum + (2 ^ (k + l.length) - 2 ^ k),
          sl ++ (List.range l.length).map (fun j => 2 ^ (k + j))⟩ := by
  induction l with
  | nil => intro k e sl _; simp
  | cons a l ih =>
    intro k e sl h
    have hstep :
        getRun ((a :: l) ++ rest) ⟨2 ^ k, k, e, sl⟩ =
          getRun (l ++ rest)
            ⟨2 ^ k * 2, k + 1, e + a.dur + 2 ^ k, sl ++ [2 ^ k]⟩ := by
      cases a with
      | connError d => simp [getRun, Attempt.dur]
      | resp s d =>
        have hs : s = 429 := by
          have := h _ (List.mem_cons_self _ _)
          simpa [Attempt.retriable] using this
        simp [getRun, hs, Attempt.dur]
    rw [hstep]
    have hpow : 2 ^ k * 2 = 2 ^ (k + 1) := (pow_succ 2 k).symm
    rw [hpow, ih (k + 1) (e + a.dur + 2 ^ k) (sl ++ [2 ^ k])
          (fun b hb => h b (List.mem_cons_of_mem _ hb))]
    congr 1
    simp only [List.length_cons, List.map_cons, List.sum_cons]
    have hexp2 : k + (l.length + 1) = k + 1 + l.length := by omega
    rw [hexp2]
    have hle2 : 2 ^ (k + 1) ≤ 2 ^ (k + 1 + l.length) :=
      Nat.pow_le_pow_right (by norm_num) (by omega)
    have h2 : 2 ^ (k + 1) = 2 * 2 ^ k := by rw [pow_succ]; ring
    simp only [GetState.mk.injEq]
    refine ⟨trivial, trivial, by omega, ?_⟩
    rw [List.range_succ_eq_map]
    simp only [List.map_cons, List.map_map, List.append_assoc,
      List.singleton_append, Nat.add_zero]
    congr 2
    apply List.map_congr_left
    intro j _
    simp only [Function.comp_apply]
    congr 1
    omega

/-- C8.  `_get` retries forever on a connection failure or an HTTP 429
response, sleeping a pause that starts at 1 time-unit and doubles after
every retry with no cap (first conjunct: after any number of retriable
attempts it is still looping, having slept exactly `1, 2, 4, ...`);
any other HTTP error status (400–599) is raised to the caller
immediately, without consuming further attempts (second conjunct); and
on a successful return the timing/backoff diagnostic is written if and
only if at least one retry occurred or the whole call took more than 3
time-units (third conjunct). -/
theorem get_fetch_retry_spec :
    (∀ (l : List Attempt), (∀ a ∈ l, a.retriable = true) →
      getRun l getInit =
        .looping ⟨2 ^ l.length, l.length,
          (l.map Attempt.dur).sum + (2 ^ l.length - 1),
          (List.range l.length).map (fun j => 2 ^ j)⟩) ∧
    (∀ (s d : ℕ) (rest : List Attempt) (st : GetState),
      400 ≤ s → s < 600 → s ≠ 429 →
      getRun (.resp s d :: rest) st = .raised s (st.elapsed + d) st.backoffs) ∧
    (∀ (l : List Attempt) (s d : ℕ), (∀ a ∈ l, a.retriable = true) →
      s ≠ 429 → ¬(400 ≤ s ∧ s < 600) →
      ∃ elapsed diags,
        getRun (l ++ [.resp s d]) getInit = .success elapsed l.length diags ∧
        elapsed = (l.map Attempt.dur).sum + (2 ^ l.length - 1) + d ∧
        (diags ≠ [] ↔ 0 < l.length ∨ 3 < elapsed) ∧
        diags = if 0 < l.length ∨ 3 < elapsed
                then [Diag.requestTiming elapsed l.length] else []) := by
  have hinit : getInit = ⟨2 ^ 0, 0, 0, []⟩ := by simp [getInit]
  refine ⟨?_, ?_, ?_⟩
  · intro l h
    have := getRun_retriable_prefix l [] 0 0 [] h
    rw [List.append_nil] at this
    rw [hinit, this]
    simp [getRun]
  · intro s d rest st h4 h6 h9
    simp [getRun, h9, h4, h6]
  · intro l s d h h9 herr
    have hpre := getRun_retriable_prefix l [.resp s d] 0 0 [] h
    rw [hinit, hpre]
    simp only [Nat.zero_add, Nat.pow_zero]
    refine ⟨(l.map Attempt.dur).sum + (2 ^ l.length - 1) + d,
      if 0 < l.length ∨ 3 < (l.map Attempt.dur).sum + (2 ^ l.length - 1) + d
      then [Diag.requestTiming
              ((l.map Attempt.dur).sum + (2 ^ l.length - 1) + d) l.length]
      else [], ?_, rfl, ?_, rfl⟩
    · simp only [getRun, h9, herr, if_neg, if_false]
    · by_cases hc : 0 < l.length ∨
        3 < (l.map Attempt.dur).sum + (2 ^ l.length - 1) + d
      · rw [if_pos hc]; simpa using hc
      · rw [if_neg hc]; simpa using hc

/-- Witness for C8: a concrete all-retriable run (pause doubled 1, 2;
still looping), a concrete immediate 404, and a concrete
one-retry-then-success call that writes the diagnostic. -/
theorem get_fetch_retry_spec_witness :
    getRun [.connError 1, .resp 429 1] getInit =
      .looping ⟨4, 2, 5, [1, 2]⟩ ∧
    getRun [.resp 404 0, .connError 5] getInit = .raised 404 0 0 ∧
    getRun [.connError 0, .resp 200 1] getInit =
      .success 2 1 [Diag.requestTiming 2 1] := by
  refine ⟨?_, ?_, ?_⟩
  · exact (get_fetch_retry_spec.1 [.connError 1, .resp 429 1] (by decide)).trans
      (congrArg GetRes.looping (by decide))
  · have h := get_fetch_retry_spec.2.1 404 0 [.connError 5] getInit
      (by norm_num) (by norm_num) (by norm_num)
    simpa [getInit] using h
  · obtain ⟨el, ds, heq, hel, _, hds⟩ :=
      get_fetch_retry_spec.2.2 [.connError 0] 200 1 (by decide)
        (by norm_num) (by norm_num)
    have hel2 : el = 2 := by rw [hel]; decide
    have hds2 : ds = [Diag.requestTiming 2 1] := by
      rw [hds, hel2]; decide
    rw [hel2, hds2] at heq
    simpa using heq

/-- C5.  On a page carrying the server-side-incomplete signal the
timeout counter is incremented; if it has reached 3 the scan fails hard
with the too-unstable error, yielding nothing; below 3 the same page is
refetched — the state is unchanged except for the bumped counter, so
the cursor does not advance — and nothing is yielded.  Every page that
does not carry the signal resets the counter to 0 (third conjunct: any
continuing step from a non-timed-out page leaves a state whose counter
is 0). -/
theorem github_timeout_counter_spec :
    (∀ (st : GHState) (pg : GHPage), githubSearchTimedOut pg.h3s = .ok true →
      (3 ≤ st.timeouts + 1 →
        githubStep st pg = ⟨.fatal .tooUnstable, [], []⟩) ∧
      (st.timeouts + 1 < 3 →
        githubStep st pg =
          ⟨.next { st with timeouts := st.timeouts + 1 }, [], []⟩)) ∧
    (∀ (st : GHState) (pg : GHPage) (st' : GHState),
      githubSearchTimedOut pg.h3s = .ok false →
      (githubStep st pg).out = .next st' → st'.timeouts = 0) := by
  constructor
  · intro st pg h
    constructor
    · intro h3
      simp [githubStep, h, h3]
    · intro h3
      have hn : ¬ 3 ≤ st.timeouts + 1 := by omega
      simp [githubStep, h, hn]
  · intro st pg st' h hnext
    simp only [githubStep, h] at hnext
    cases hl : h3Loop st.hits.length pg.h3s st.page 0 [] with
    | exitReturn ds => rw [hl] at hnext; simp at hnext
    | exitFatal e ds => rw [hl] at hnext; simp at hnext
    | through p fc ds =>
      rw [hl] at hnext
      by_cases hfc : fc ≠ 1
      · simp [hfc] at hnext
      · simp only [hfc, if_false, if_neg, ite_false] at hnext
        simp only [GHOut.next.injEq] at hnext
        rw [← hnext]

/-- Witness for C5, on a page shaped like a real timed-out results page
(help link plus partial count in the heading): with 2 previous
timeouts the step fails hard; with 0 it refetches the same page with
the counter at 1; and a non-timed-out continuing step (a count-5 page
from the initial state) leaves the counter at 0. -/
theorem github_timeout_counter_spec_witness :
    githubStep ⟨[], 7, 2⟩ timedOutPage = ⟨.fatal .tooUnstable, [], []⟩ ∧
    githubStep ⟨[], 7, 0⟩ timedOutPage = ⟨.next ⟨[], 7, 1⟩, [], []⟩ ∧
    (⟨[], 1, 0⟩ : GHState).timeouts = 0 := by
  refine ⟨?_, ?_, ?_⟩
  · exact ((github_timeout_counter_spec.1 ⟨[], 7, 2⟩ timedOutPage
      rfl).1 (by norm_num))
  · exact ((github_timeout_counter_spec.1 ⟨[], 7, 0⟩ timedOutPage
      rfl).2 (by norm_num))
  · exact github_timeout_counter_spec.2 ghInit oneCountPage ⟨[], 1, 0⟩
      rfl rfl

/-- C4, counterexample.  The claim says that whenever a page reports a
count with `len(seen) >= count` the scan returns without error.  With
1001 hits already seen and a reported count of 1,001 the code instead
raises `RuntimeError("Too many hits! ...")`: the over-1000 ceiling
check sits before the `count <= len(hits)` comparison. -/
theorem github_count_step_cex :
    1001 ≤ (GHState.mk (List.replicate 1001 []) 1 0).hits.length ∧
    githubStep ⟨List.replicate 1001 [], 1, 0⟩ bigCountPage =
      ⟨.fatal (.tooManyHits 1001), [], []⟩ := by
  constructor
  · simp
  · decide

/-- One `search_github` iteration on a page reporting exactly one
count of at most 1000, from an arbitrary state: the step returns when
`len(hits)` has reached the count, wraps the cursor to page 1 with the
missing-hits diagnostic when the cursor sits on the last implied page,
and advances the cursor by one otherwise (the last two registering and
yielding the page's new links and resetting the timeout counter). -/
theorem githubStep_one_count :
    ∀ (st : GHState) (links : List Str) (h3 : H3) (digits : Str) (count : ℕ),
      h3.links.any (fun l => strContains l timeoutLinkFragment) = false →
      showingSearch h3.text = false →
      findCounts h3.text = [digits] →
      strContains h3.text zeroPhrase = false →
      countValue? digits = some count →
      count ≤ 1000 →
      (count ≤ st.hits.length →
        githubStep st ⟨[h3], links⟩ = ⟨.done, [], []⟩) ∧
      (st.hits.length < count → st.page = (count + 9) / 10 →
        githubStep st ⟨[h3], links⟩ =
          ⟨.next ⟨(githubCollect st.hits links).1, 1, 0⟩,
           (githubCollect st.hits links).2,
           [Diag.missingHits (count - st.hits.length) count]⟩) ∧
      (st.hits.length < count → st.page ≠ (count + 9) / 10 →
        githubStep st ⟨[h3], links⟩ =
          ⟨.next ⟨(githubCollect st.hits links).1, st.page + 1, 0⟩,
           (githubCollect st.hits links).2, []⟩) := by
  intro st links h3 digits count hlink hshow hfc hzero hcv hle
  have hts : githubSearchTimedOut [h3] = .ok false := by
    simp [githubSearchTimedOut, hlink, hshow]
  have hceil : count / 10 + (if count % 10 ≠ 0 then 1 else 0) =
      (count + 9) / 10 := by
    split <;> omega
  refine ⟨?_, ?_, ?_⟩
  · intro hc
    simp [githubStep, hts, h3Loop, countLoop, hfc, hcv, hc,
      Nat.not_lt.mpr hle]
  · intro hc hpg
    have hnle : ¬ count ≤ st.hits.length := by omega
    have h1000 : ¬ 1000 < count := by omega
    have hpg2 : st.page = count / 10 + (if count % 10 ≠ 0 then 1 else 0) := by
      rw [hceil]; exact hpg
    simp [githubStep, hts, h3Loop, countLoop, hfc, hcv, hnle, h1000,
      hzero, hpg2]
  · intro hc hpg
    have hnle : ¬ count ≤ st.hits.length := by omega
    have h1000 : ¬ 1000 < count := by omega
    have hpg2 : ¬ st.page = count / 10 + (if count % 10 = 0 then 0 else 1) := by
      have h' : count / 10 + (if count % 10 = 0 then 0 else 1) =
          (count + 9) / 10 := by split <;> omega
      rw [h']; exact hpg
    simp [githubStep, hts, h3Loop, countLoop, hfc, hcv, hnle, h1000,
      hzero, hpg2]

/-- C4, as amended: for a page reporting exactly one count, of at most
1000.  If `len(seen) >= count` the step returns (no error, nothing
yielded); otherwise, if the cursor sits on `ceil(count/10)` it wraps
back to page 1 and writes the diagnostic with the number of still
missing matches, and otherwise it advances by exactly 1 (in both cases
registering and yielding the page's new links and resetting the
timeout counter). -/
theorem github_count_step_spec :
    ∀ (st : GHState) (links : List Str) (h3 : H3) (digits : Str) (count : ℕ),
      h3.links.any (fun l => strContains l timeoutLinkFragment) = false →
      showingSearch h3.text = false →
      findCounts h3.text = [digits] →
      strContains h3.text zeroPhrase = false →
      countValue? digits = some count →
      count ≤ 1000 →
      (count ≤ st.hits.length →
        githubStep st ⟨[h3], links⟩ = ⟨.done, [], []⟩) ∧
      (st.hits.length < count → st.page = (count + 9) / 10 →
        githubStep st ⟨[h3], links⟩ =
          ⟨.next ⟨(githubCollect st.hits links).1, 1, 0⟩,
           (githubCollect st.hits links).2,
           [Diag.missingHits (count - st.hits.length) count]⟩) ∧
      (st.hits.length < count → st.page ≠ (count + 9) / 10 →
        githubStep st ⟨[h3], links⟩ =
          ⟨.next ⟨(githubCollect st.hits links).1, st.page + 1, 0⟩,
           (githubCollect st.hits links).2, []⟩) :=
  githubStep_one_count

/-- Witness for C4 on the count-5 page: with 5 hits already seen the
step returns; from the initial state (page 1 = ceil(5/10)) it wraps to
page 1 writing the 5-missing diagnostic; from page 3 it advances to
page 4. -/
theorem github_count_step_spec_witness :
    githubStep ⟨List.replicate 5 [], 1, 0⟩ oneCountPage = ⟨.done, [], []⟩ ∧
    githubStep ghInit oneCountPage =
      ⟨.next ⟨[], 1, 0⟩, [], [Diag.missingHits 5 5]⟩ ∧
    githubStep ⟨[], 3, 0⟩ oneCountPage = ⟨.next ⟨[], 4, 0⟩, [], []⟩ := by
  refine ⟨?_, ?_, ?_⟩
  · exact (github_count_step_spec ⟨List.replicate 5 [], 1, 0⟩ []
      ⟨[], "found 5 code results".data⟩ ['5'] 5 rfl rfl rfl rfl rfl
      (by norm_num)).1 (by simp)
  · exact ((github_count_step_spec ghInit []
      ⟨[], "found 5 code results".data⟩ ['5'] 5 rfl rfl rfl rfl rfl
      (by norm_num)).2.1 (by simp [ghInit]) (by simp [ghInit])).trans
      (by decide)
  · exact ((github_count_step_spec ⟨[], 3, 0⟩ []
      ⟨[], "found 5 code results".data⟩ ['5'] 5 rfl rfl rfl rfl rfl
      (by norm_num)).2.2 (by simp) (by simp)).trans (by decide)

/-- C3, counterexample.  A page whose headings carry both a numeric
count heading (count 5) and the zero-results phrase does not abort:
from the initial state the step wraps the cursor to page 1 (count 5
implies a single total page), the `assert page == 1` next to the
phrase then holds, and the scan returns normally — no fatal assertion
is raised (`out` is `done`, not `fatal`). -/
theorem github_contradiction_cex :
    githubStep ghInit bothPage5 = ⟨.done, [], [Diag.missingHits 5 5]⟩ := by
  decide

/-- C3, as amended.  On a page carrying both a single count heading
(count ≤ 1000) and, in a later heading, the zero-results phrase, the
scan aborts with the fatal `AssertionError` only when the count moved
the cursor off page 1 — from the initial state, exactly when
`count > 10`; when `count ≤ 10` the cursor wraps back to 1 and the
scan returns normally instead.  (The `bwuh? contradictory` assertion
of `_github_search_timed_out` concerns its two timed-out detectors,
not the count/zero-results pair.) -/
theorem github_contradiction_spec :
    ∀ (h3c h3z : H3) (links : List Str) (digits : Str) (count : ℕ),
      h3c.links.any (fun l => strContains l timeoutLinkFragment) = false →
      showingSearch h3c.text = false →
      h3z.links.any (fun l => strContains l timeoutLinkFragment) = false →
      showingSearch h3z.text = false →
      findCounts h3c.text = [digits] →
      strContains h3c.text zeroPhrase = false →
      findCounts h3z.text = [] →
      strContains h3z.text zeroPhrase = true →
      countValue? digits = some count →
      0 < count → count ≤ 1000 →
      (10 < count →
        githubStep ghInit ⟨[h3c, h3z], links⟩ =
          ⟨.fatal (.zeroPhraseAssert 2), [], []⟩) ∧
      (count ≤ 10 →
        githubStep ghInit ⟨[h3c, h3z], links⟩ =
          ⟨.done, [], [Diag.missingHits count count]⟩) := by
  intro h3c h3z links digits count hlc hsc hlz hsz hfcc hzc hfcz hzz hcv
    hpos hle
  have hts : githubSearchTimedOut [h3c, h3z] = .ok false := by
    simp [githubSearchTimedOut, hlc, hsc, hlz, hsz]
  have h1000 : ¬ 1000 < count := by omega
  constructor
  · intro h10
    have hnle : ¬ count ≤ (ghInit.hits).length := by simp [ghInit]; omega
    have hne0 : ¬ count = 0 := by omega
    have hne : ¬ (1 : ℕ) = count / 10 + (if count % 10 = 0 then 0 else 1) := by
      split <;> omega
    simp [githubStep, ghInit, hts, h3Loop, countLoop, hfcc, hfcz, hcv,
      hzc, hzz, hne, h1000, hnle, hne0]
  · intro h10
    have hnle : ¬ count ≤ (ghInit.hits).length := by simp [ghInit]; omega
    have hne0 : ¬ count = 0 := by omega
    have heq : count / 10 + (if count % 10 = 0 then 0 else 1) = 1 := by
      split <;> omega
    simp [githubStep, ghInit, hts, h3Loop, countLoop, hfcc, hfcz, hcv,
      hzc, hzz, heq, h1000, hnle, hne0]

/-- Witness for C3 as amended: count 15 plus the zero-results phrase
aborts with the assertion failure at cursor 2; count 5 plus the phrase
returns normally. -/
theorem github_contradiction_spec_witness :
    githubStep ghInit bothPage15 = ⟨.fatal (.zeroPhraseAssert 2), [], []⟩ ∧
    (githubStep ghInit bothPage5).out = GHOut.done := by
  constructor
  · exact (github_contradiction_spec ⟨[], "found 15 code results".data⟩
      zeroH3 [] ['1', '5'] 15 rfl rfl rfl rfl rfl rfl rfl rfl rfl
      (by norm_num) (by norm_num)).1 (by norm_num)
  · have h := (github_contradiction_spec ⟨[], "found 5 code results".data⟩
      zeroH3 [] ['5'] 5 rfl rfl rfl rfl rfl rfl rfl rfl rfl
      (by norm_num) (by norm_num)).2 (by norm_num)
    exact congrArg GHStepRes.out h

/-- If no heading has a count match and some heading carries the
zero-results phrase, the heading loop returns with the cursor still at
page 1 and no further diagnostics. -/
theorem h3Loop_zero_phrase (hitsLen : ℕ) :
    ∀ (hs : List H3) (fc : ℕ) (ds : List Diag),
      (∀ h ∈ hs, findCounts h.text = []) →
      (∃ h ∈ hs, strContains h.text zeroPhrase = true) →
      h3Loop hitsLen hs 1 fc ds = .exitReturn ds := by
  intro hs
  induction hs with
  | nil => intro fc ds _ hex; simp at hex
  | cons h t ih =>
    intro fc ds hall hex
    have hfc : findCounts h.text = [] := hall h (List.mem_cons_self _ _)
    by_cases hz : strContains h.text zeroPhrase = true
    · simp [h3Loop, countLoop, hfc, hz]
    · have hex' : ∃ h' ∈ t, strContains h'.text zeroPhrase = true := by
        rcases hex with ⟨h', hmem, hzz⟩
        rcases List.mem_cons.mp hmem with rfl | hmem'
        · exact absurd hzz hz
        · exact ⟨h', hmem', hzz⟩
      have hz' : strContains h.text zeroPhrase = false := by
        cases hcs : strContains h.text zeroPhrase
        · rfl
        · exact absurd hcs hz
      simp [h3Loop, countLoop, hfc, hz']
      exact ih fc ds (fun x hx => hall x (List.mem_cons_of_mem _ hx)) hex'

/-- C9.  If the first fetched page (fetch 0, page 1) carries the
no-results phrase as its only completion signal — it is not timed out
and has no count heading — then the scan terminates after that single
page fetch, yielding nothing, writing nothing, and raising no
error. -/
theorem github_no_results_spec :
    ∀ (backend : ℕ → ℕ → GHPage) (fuel : ℕ),
      githubSearchTimedOut (backend 0 1).h3s = .ok false →
      (∀ h ∈ (backend 0 1).h3s, findCounts h.text = []) →
      (∃ h ∈ (backend 0 1).h3s, strContains h.text zeroPhrase = true) →
      githubRun backend (fuel + 1) ghInit 0 = ⟨[], [], 1, .done⟩ := by
  intro backend fuel hts hall hex
  have hl := h3Loop_zero_phrase 0 (backend 0 1).h3s 0 [] hall hex
  have hstep : githubStep ⟨[], 1, 0⟩ (backend 0 1) = ⟨.done, [], []⟩ := by
    simp [githubStep, hts, hl]
  simp [githubRun, ghInit, hstep]

/-- Witness for C9: a backend whose first page only carries the
no-results phrase produces the empty scan in one fetch. -/
theorem github_no_results_spec_witness :
    githubRun (fun _ _ => zeroPage) 1 ghInit 0 = ⟨[], [], 1, .done⟩ := by
  exact github_no_results_spec (fun _ _ => zeroPage) 0 rfl
    (by decide) (by decide)

/-- Reindexing identity for runs over consecutive pages: a map of
`f (p + j)` over `range (k+1)` splits into `f p` followed by the map
of `f (p + 1 + j)` over `range k`. -/
theorem range_shift_map {α : Type} (f : ℕ → α) (p k : ℕ) :
    (List.range (k + 1)).map (fun j => f (p + j)) =
      f p :: (List.range k).map (fun j => f (p + 1 + j)) := by
  rw [List.range_succ_eq_map, List.map_cons, List.map_map, Nat.add_zero]
  congr 1
  apply List.map_congr_left
  intro j _
  simp only [Function.comp_apply]
  congr 1
  omega

/-- A searchcode scan whose backend echoes pages `p, ..., p+n` faithfully,
with nonempty results up to `p+n-1` and an empty page at `p+n`,
terminates normally after `n+1` fetches of the consecutive pages,
yielding the pages' matches in order. -/
theorem searchcodeRun_complete (b : ℕ → SCPage) :
    ∀ (n p fuel : ℕ),
      (∀ j, j ≤ n → (b (p + j)).page = p + j) →
      (∀ j, j < n → (b (p + j)).results ≠ []) →
      (b (p + n)).results = [] → n < fuel →
      searchcodeRun b fuel p =
        ⟨((List.range n).map (fun j => (b (p + j)).results.map scMatch)).flatten,
         (List.range (n + 1)).map (fun j => p + j), n + 1, .done⟩ := by
  intro n
  induction n with
  | zero =>
    intro p fuel h1 _ h3 hfuel
    obtain ⟨f, rfl⟩ : ∃ f, fuel = f + 1 := ⟨fuel - 1, by omega⟩
    have hp := h1 0 (le_refl 0)
    rw [Nat.add_zero] at hp h3
    simp [searchcodeRun, hp, h3, List.range_succ]
  | succ n ih =>
    intro p fuel h1 h2 h3 hfuel
    obtain ⟨f, rfl⟩ : ∃ f, fuel = f + 1 := ⟨fuel - 1, by omega⟩
    have hp := h1 0 (by omega)
    rw [Nat.add_zero] at hp
    have hr : (b p).results ≠ [] := by
      have := h2 0 (by omega)
      rwa [Nat.add_zero] at this
    have hrec := ih (p + 1) f
      (fun j hj => by
        have := h1 (j + 1) (by omega)
        rwa [show p + (j + 1) = p + 1 + j by omega] at this)
      (fun j hj => by
        have := h2 (j + 1) (by omega)
        rwa [show p + (j + 1) = p + 1 + j by omega] at this)
      (by rwa [show p + 1 + n = p + (n + 1) by omega])
      (by omega)
    have hyields := range_shift_map
      (fun m => (b m).results.map scMatch) p n
    have hpages := range_shift_map (fun m : ℕ => m) p (n + 1)
    simp only [searchcodeRun, hp, ne_eq, not_true_eq_false, if_false,
      hr, ite_false, hrec]
    rw [hyields, List.flatten_cons, hpages]

/-- C7.  The searchcode scan terminates normally exactly when a fetched
page has an empty results array (first conjunct: a faithful backend
with its first empty page at index `k` gives a normal end after
requesting exactly the consecutive pages `0, 1, ..., k` — the cursor
only ever moves forward by 1; third conjunct: a normal end implies
some fetched page was echoed correctly and empty); and it raises
`RuntimeError("Too many results")` exactly when an echoed page number
differs from the requested one (second conjunct: a mismatched echo
fails immediately; fourth conjunct: any fatal end is that error and
implies a mismatched echo). -/
theorem searchcode_scan_spec :
    (∀ (b : ℕ → SCPage) (k fuel : ℕ),
      (∀ j, j ≤ k → (b j).page = j) →
      (∀ j, j < k → (b j).results ≠ []) →
      (b k).results = [] → k < fuel →
      searchcodeRun b fuel 0 =
        ⟨((List.range k).map (fun j => (b j).results.map scMatch)).flatten,
         List.range (k + 1), k + 1, .done⟩) ∧
    (∀ (b : ℕ → SCPage) (fuel p : ℕ), 0 < fuel → (b p).page ≠ p →
      searchcodeRun b fuel p = ⟨[], [p], 1, .fatal .tooManyResults⟩) ∧
    (∀ (b : ℕ → SCPage) (fuel p : ℕ),
      (searchcodeRun b fuel p).outcome = .done →
      ∃ j, (b j).page = j ∧ (b j).results = []) ∧
    (∀ (b : ℕ → SCPage) (fuel p : ℕ) (e : Fatal),
      (searchcodeRun b fuel p).outcome = .fatal e →
      e = .tooManyResults ∧ ∃ j, (b j).page ≠ j) := by
  refine ⟨?_, ?_, ?_, ?_⟩
  · intro b k fuel h1 h2 h3 hfuel
    have := searchcodeRun_complete b k 0 fuel
      (fun j hj => by simpa using h1 j hj)
      (fun j hj => by simpa using h2 j hj)
      (by simpa using h3) hfuel
    rw [this]
    simp
  · intro b fuel p hfuel hne
    obtain ⟨f, rfl⟩ : ∃ f, fuel = f + 1 := ⟨fuel - 1, by omega⟩
    simp [searchcodeRun, hne]
  · intro b fuel
    induction fuel with
    | zero => intro p h; simp [searchcodeRun] at h
    | succ f ih =>
      intro p h
      by_cases hne : (b p).page ≠ p
      · simp [searchcodeRun, hne] at h
      · by_cases hres : (b p).results = []
        · exact ⟨p, Decidable.not_not.mp hne, hres⟩
        · simp [searchcodeRun, hne, hres] at h
          exact ih (p + 1) h
  · intro b fuel
    induction fuel with
    | zero => intro p e h; simp [searchcodeRun] at h
    | succ f ih =>
      intro p e h
      by_cases hne : (b p).page ≠ p
      · simp [searchcodeRun, hne] at h
        exact ⟨h.symm, p, hne⟩
      · by_cases hres : (b p).results = []
        · simp [searchcodeRun, Decidable.not_not.mp hne, hres] at h
        · simp [searchcodeRun, hne, hres] at h
          exact ih (p + 1) e h

/-- Witness for C7: the spec's example backend — page 0 echoed with 100
results, page 1 echoed empty — yields the 100 matches of page 0 over
fetches of pages 0 and 1 and then terminates normally; and a backend
echoing a wrong page number fails immediately with the too-many-results
error. -/
theorem searchcode_scan_spec_witness :
    searchcodeRun scExBackend 2 0 =
      ⟨((List.range 100).map scExResult).map scMatch, [0, 1], 2, .done⟩ ∧
    (((List.range 100).map scExResult).map scMatch).length = 100 ∧
    searchcodeRun (fun _ => ⟨5, []⟩) 1 0 =
      ⟨[], [0], 1, .fatal .tooManyResults⟩ := by
  refine ⟨?_, by simp, ?_⟩
  · have h := searchcode_scan_spec.1 scExBackend 1 2
      (by intro j hj; interval_cases j <;> rfl)
      (by intro j hj; interval_cases j <;> decide)
      (by rfl) (by norm_num)
    rw [h]
    simp [scExBackend, List.range_succ]
  · exact searchcode_scan_spec.2.1 (fun _ => ⟨5, []⟩) 1 0 (by norm_num)
      (by norm_num)

/-- The `hits` set only grows across the result-link loop. -/
theorem githubCollect_hits_mono :
    ∀ (urls hits : List Str) (u : Str),
      u ∈ hits → u ∈ (githubCollect hits urls).1 := by
  intro urls
  induction urls with
  | nil => intro hits u hu; simpa [githubCollect] using hu
  | cons url rest ih =>
    intro hits u hu
    simp only [githubCollect]
    cases hm : githubLinkMatch url with
    | none => exact ih hits u hu
    | some m =>
      by_cases hmem : m.raw_url ∈ hits
      · simp only [hmem, if_true, ite_true]
        exact ih hits u hu
      · simp only [hmem, if_false, ite_false]
        exact ih (m.raw_url :: hits) u (List.mem_cons_of_mem _ hu)

/-- Every match yielded by the result-link loop was new (its `raw_url`
was not in `hits`) and is registered in the returned `hits` set. -/
theorem githubCollect_yield_new :
    ∀ (urls hits : List Str) (m : Match),
      m ∈ (githubCollect hits urls).2 →
      m.raw_url ∉ hits ∧ m.raw_url ∈ (githubCollect hits urls).1 := by
  intro urls
  induction urls with
  | nil => intro hits m hm; simp [githubCollect] at hm
  | cons url rest ih =>
    intro hits m hm
    simp only [githubCollect] at hm ⊢
    cases hlm : githubLinkMatch url with
    | none =>
      rw [hlm] at hm
      exact ih hits m hm
    | some m' =>
      rw [hlm] at hm
      by_cases hmem : m'.raw_url ∈ hits
      · simp only [hmem, if_true, ite_true] at hm ⊢
        exact ih hits m hm
      · simp only [hmem, if_false, ite_false] at hm ⊢
        rcases List.mem_cons.mp hm with rfl | htail
        · exact ⟨hmem, githubCollect_hits_mono rest _ _
            (List.mem_cons_self _ _)⟩
        · have := ih (m'.raw_url :: hits) m htail
          exact ⟨fun hu => this.1 (List.mem_cons_of_mem _ hu), this.2⟩

/-- The result-link loop never yields the same `raw_url` twice within
one page. -/
theorem githubCollect_yields_nodup :
    ∀ (urls hits : List Str),
      ((githubCollect hits urls).2.map Match.raw_url).Nodup := by
  intro urls
  induction urls with
  | nil => intro hits; simp [githubCollect]
  | cons url rest ih =>
    intro hits
    simp only [githubCollect]
    cases hlm : githubLinkMatch url with
    | none => exact ih hits
    | some m =>
      by_cases hmem : m.raw_url ∈ hits
      · simp only [hmem, if_true, ite_true]
        exact ih hits
      · simp only [hmem, if_false, ite_false, List.map_cons,
          List.nodup_cons]
        refine ⟨?_, ih (m.raw_url :: hits)⟩
        intro hmap
        rcases List.mem_map.mp hmap with ⟨m₂, hm₂, hraw⟩
        have := (githubCollect_yield_new rest (m.raw_url :: hits) m₂
          hm₂).1
        rw [hraw] at this
        exact this (List.mem_cons_self _ _)

/-- Case split on one `search_github` iteration: either it yields
nothing and any continuation state keeps the same `hits`, or it
continues with the `hits` and yields of the result-link loop. -/
theorem githubStep_out_cases (st : GHState) (pg : GHPage) :
    ((githubStep st pg).yields = [] ∧
      ∀ st', (githubStep st pg).out = GHOut.next st' → st'.hits = st.hits) ∨
    (∃ p', (githubStep st pg).out =
        GHOut.next ⟨(githubCollect st.hits pg.resultLinks).1, p', 0⟩ ∧
      (githubStep st pg).yields = (githubCollect st.hits pg.resultLinks).2) := by
  cases hts : githubSearchTimedOut pg.h3s with
  | error e =>
    refine Or.inl ⟨by simp [githubStep, hts], fun st' h => ?_⟩
    simp [githubStep, hts] at h
  | ok b =>
    cases b with
    | true =>
      by_cases h3 : 3 ≤ st.timeouts + 1
      · refine Or.inl ⟨by simp [githubStep, hts, h3], fun st' h => ?_⟩
        simp [githubStep, hts, h3] at h
      · refine Or.inl ⟨by simp [githubStep, hts, h3], fun st' h => ?_⟩
        simp only [githubStep, hts, h3, if_false, ite_false] at h
        simp only [GHOut.next.injEq] at h
        subst h
        rfl
    | false =>
      cases hl : h3Loop st.hits.length pg.h3s st.page 0 [] with
      | exitReturn ds =>
        refine Or.inl ⟨by simp [githubStep, hts, hl], fun st' h => ?_⟩
        simp [githubStep, hts, hl] at h
      | exitFatal e ds =>
        refine Or.inl ⟨by simp [githubStep, hts, hl], fun st' h => ?_⟩
        simp [githubStep, hts, hl] at h
      | through p' fc ds =>
        by_cases hfc : fc ≠ 1
        · refine Or.inl ⟨by simp [githubStep, hts, hl, hfc],
            fun st' h => ?_⟩
          simp [githubStep, hts, hl, hfc] at h
        · exact Or.inr ⟨p', by simp [githubStep, hts, hl, hfc],
            by simp [githubStep, hts, hl, hfc]⟩

/-- Dedup invariant of a GitHub scan: over any backend behaviour and
any fuel, the yielded matches from a state carry pairwise distinct
`raw_url`s, none of which was already in the state's `hits` set. -/
theorem githubRun_yields_nodup (backend : ℕ → ℕ → GHPage) :
    ∀ (fuel : ℕ) (st : GHState) (i : ℕ),
      (((githubRun backend fuel st i).yields.map Match.raw_url).Nodup) ∧
      ∀ m ∈ (githubRun backend fuel st i).yields, m.raw_url ∉ st.hits := by
  intro fuel
  induction fuel with
  | zero => intro st i; simp [githubRun]
  | succ f ih =>
    intro st i
    rcases githubStep_out_cases st (backend i st.page) with
      ⟨hy, hnext⟩ | ⟨p', hout, hy⟩
    · cases hout : (githubStep st (backend i st.page)).out with
      | done =>
        simp only [githubRun, hout, hy]
        simp
      | fatal e =>
        simp only [githubRun, hout, hy]
        simp
      | next st' =>
        have hh : st'.hits = st.hits := hnext st' hout
        simp only [githubRun, hout, hy, List.nil_append]
        refine ⟨(ih st' (i + 1)).1, fun m hm => ?_⟩
        rw [← hh]
        exact (ih st' (i + 1)).2 m hm
    · simp only [githubRun, hout, hy]
      constructor
      · rw [List.map_append]
        rw [List.nodup_append]
        refine ⟨githubCollect_yields_nodup _ _, (ih _ (i + 1)).1, ?_⟩
        intro x hx hx'
        rcases List.mem_map.mp hx with ⟨m, hm, rfl⟩
        rcases List.mem_map.mp hx' with ⟨m₂, hm₂, hraw⟩
        have hnew := (ih ⟨(githubCollect st.hits
          (backend i st.page).resultLinks).1, p', 0⟩ (i + 1)).2 m₂ hm₂
        rw [hraw] at hnew
        exact hnew (githubCollect_yield_new _ _ m hm).2
      · intro m hm
        rcases List.mem_append.mp hm with hm | hm
        · exact (githubCollect_yield_new _ _ m hm).1
        · have hnew := (ih ⟨(githubCollect st.hits
            (backend i st.page).resultLinks).1, p', 0⟩ (i + 1)).2 m hm
          intro hmem
          exact hnew (githubCollect_hits_mono _ _ _ hmem)

/-- The searchcode scan copies its pages' results through verbatim:
its yields are exactly the per-page `scMatch` images of every
correctly-echoed requested page, concatenated — no deduplication. -/
theorem searchcodeRun_yields_verbatim (b : ℕ → SCPage) :
    ∀ (fuel p : ℕ),
      (searchcodeRun b fuel p).yields =
        ((searchcodeRun b fuel p).pagesRequested.map
          (fun j => if (b j).page = j then (b j).results.map scMatch
                    else [])).flatten := by
  intro fuel
  induction fuel with
  | zero => intro p; simp [searchcodeRun]
  | succ f ih =>
    intro p
    by_cases hne : (b p).page ≠ p
    · simp [searchcodeRun, hne]
    · by_cases hres : (b p).results = []
      · simp [searchcodeRun, hne, hres, Decidable.not_not.mp hne]
      · simp only [searchcodeRun, hne, if_false, ite_false, hres]
        rw [List.map_cons, List.flatten_cons, if_pos (Decidable.not_not.mp hne)]
        rw [ih (p + 1)]

/-- C6.  For a GitHub scan the yielded matches are pairwise distinct by
`raw_url` (fragment-stripped raw URL), over every backend behaviour,
fuel, start state and fetch index.  The searchcode scan, by contrast,
deduplicates nothing: it yields the backend's result entries verbatim
(second conjunct), so a backend that repeats a `raw_url` makes it
yield that `raw_url` more than once. -/
theorem scan_identity_spec :
    (∀ (backend : ℕ → ℕ → GHPage) (fuel : ℕ) (st : GHState) (i : ℕ),
      (((githubRun backend fuel st i).yields.map Match.raw_url).Nodup)) ∧
    (∀ (b : ℕ → SCPage) (fuel p : ℕ),
      (searchcodeRun b fuel p).yields =
        ((searchcodeRun b fuel p).pagesRequested.map
          (fun j => if (b j).page = j then (b j).results.map scMatch
                    else [])).flatten) :=
  ⟨fun backend fuel st i => (githubRun_yields_nodup backend fuel st i).1,
   fun b fuel p => searchcodeRun_yields_verbatim b fuel p⟩

/-- C6, counterexample.  The claim asserts the dedup property for both
backends; the searchcode scan violates it: a backend whose first page
lists the same result twice makes the scan yield the same `raw_url`
twice. -/
theorem scan_identity_cex :
    ¬ (((searchcodeRun scDupBackend 2 0).yields.map Match.raw_url).Nodup) := by
  decide

/-- Every match the result-link loop yields comes from some link of the
page through `githubLinkMatch`. -/
theorem githubCollect_yield_src :
    ∀ (urls hits : List Str) (m : Match),
      m ∈ (githubCollect hits urls).2 →
      ∃ url ∈ urls, githubLinkMatch url = some m := by
  intro urls
  induction urls with
  | nil => intro hits m hm; simp [githubCollect] at hm
  | cons url rest ih =>
    intro hits m hm
    simp only [githubCollect] at hm
    cases hlm : githubLinkMatch url with
    | none =>
      rw [hlm] at hm
      rcases ih hits m hm with ⟨u, hu, he⟩
      exact ⟨u, List.mem_cons_of_mem _ hu, he⟩
    | some m' =>
      rw [hlm] at hm
      by_cases hmem : m'.raw_url ∈ hits
      · simp only [hmem, if_true, ite_true] at hm
        rcases ih hits m hm with ⟨u, hu, he⟩
        exact ⟨u, List.mem_cons_of_mem _ hu, he⟩
      · simp only [hmem, if_false, ite_false] at hm
        rcases List.mem_cons.mp hm with rfl | htail
        · exact ⟨url, List.mem_cons_self _ _, hlm⟩
        · rcases ih (m'.raw_url :: hits) m htail with ⟨u, hu, he⟩
          exact ⟨u, List.mem_cons_of_mem _ hu, he⟩

/-- Every match a GitHub scan yields comes from some link through
`githubLinkMatch`. -/
theorem githubRun_yield_src (backend : ℕ → ℕ → GHPage) :
    ∀ (fuel : ℕ) (st : GHState) (i : ℕ) (m : Match),
      m ∈ (githubRun backend fuel st i).yields →
      ∃ url, githubLinkMatch url = some m := by
  intro fuel
  induction fuel with
  | zero => intro st i m hm; simp [githubRun] at hm
  | succ f ih =>
    intro st i m hm
    rcases githubStep_out_cases st (backend i st.page) with
      ⟨hy, _⟩ | ⟨p', hout, hy⟩
    · cases hout : (githubStep st (backend i st.page)).out with
      | done => simp only [githubRun, hout, hy] at hm; simp at hm
      | fatal e => simp only [githubRun, hout, hy] at hm; simp at hm
      | next st' =>
        simp only [githubRun, hout, hy, List.nil_append] at hm
        exact ih st' (i + 1) m hm
    · simp only [githubRun, hout, hy] at hm
      rcases List.mem_append.mp hm with hm | hm
      · rcases githubCollect_yield_src _ _ m hm with ⟨u, _, he⟩
        exact ⟨u, he⟩
      · exact ih _ (i + 1) m hm

/-- Every match a searchcode scan yields is the `scMatch` image of some
backend result entry. -/
theorem searchcodeRun_yield_src (b : ℕ → SCPage) :
    ∀ (fuel p : ℕ) (m : Match),
      m ∈ (searchcodeRun b fuel p).yields →
      ∃ r : SCResult, m = scMatch r := by
  intro fuel
  induction fuel with
  | zero => intro p m hm; simp [searchcodeRun] at hm
  | succ f ih =>
    intro p m hm
    by_cases hne : (b p).page ≠ p
    · simp [searchcodeRun, hne] at hm
    · by_cases hres : (b p).results = []
      · simp [searchcodeRun, hne, hres, Decidable.not_not.mp hne] at hm
      · simp only [searchcodeRun, hne, if_false, ite_false, hres] at hm
        rcases List.mem_append.mp hm with hm | hm
        · rcases List.mem_map.mp hm with ⟨r, _, rfl⟩
          exact ⟨r, rfl⟩
        · exact ih (p + 1) m hm

/-- C10.  Every match the GitHub (HTML) adapter yields has a `repo`
field equal to the literal prefix `github:` concatenated with the repo
group parsed from the (fragment-stripped) result URL; the searchcode
(JSON) adapter hands the backend's `repo` string through unchanged —
the `repo` field's format differs by backend. -/
theorem adapter_repo_spec :
    (∀ (backend : ℕ → ℕ → GHPage) (fuel : ℕ) (st : GHState) (i : ℕ)
        (m : Match), m ∈ (githubRun backend fuel st i).yields →
      ∃ url rep pth, ghUrlMatch (stripFragment url) = some (rep, pth) ∧
        m.repo = "github:".data ++ rep ∧ m.path = pth) ∧
    (∀ (b : ℕ → SCPage) (fuel p : ℕ) (m : Match),
      m ∈ (searchcodeRun b fuel p).yields →
      ∃ r : SCResult, m = scMatch r ∧ m.repo = r.repo) := by
  constructor
  · intro backend fuel st i m hm
    rcases githubRun_yield_src backend fuel st i m hm with ⟨url, he⟩
    simp only [githubLinkMatch] at he
    cases hu : ghUrlMatch (stripFragment url) with
    | none => rw [hu] at he; simp at he
    | some rp =>
      rw [hu] at he
      simp only [Option.some.injEq] at he
      refine ⟨url, rp.1, rp.2, by rw [hu], ?_, ?_⟩
      · rw [← he]
      · rw [← he]
  · intro b fuel p m hm
    rcases searchcodeRun_yield_src b fuel p m hm with ⟨r, rfl⟩
    exact ⟨r, rfl, rfl⟩

/-- Witness for C10: the single-hit page backend yields the match for
`exUrl 0` whose repo is `github:r`; a searchcode result entry passes
its repo string through. -/
theorem adapter_repo_spec_witness :
    (∃ url rep pth, ghUrlMatch (stripFragment url) = some (rep, pth) ∧
      (exMatch 0).repo = "github:".data ++ rep ∧ (exMatch 0).path = pth) ∧
    (∃ r : SCResult, scMatch (scExResult 0) = scMatch r ∧
      (scMatch (scExResult 0)).repo = r.repo) := by
  constructor
  · exact adapter_repo_spec.1 (fun _ _ => oneHitPage) 1 ghInit 0
      (exMatch 0) (by decide)
  · exact adapter_repo_spec.2 scDupBackend 2 0 (scMatch (scExResult 0))
      (by decide)

/-- C1 (code bug).  The `except requests.HTTPError` handler of
`dump_all_matches` writes the error diagnostic but does not `continue`:
control falls through to `match["content"] = r.content`.  Evaluating
the embedded loop shows both failure modes.  First conjunct: when the
very first match's content fetch returns HTTP 404, `r` has never been
assigned, the loop crashes with `NameError` and the scan aborts — no
subsequent match is processed.  Second conjunct: when a later match's
fetch fails, a record for that match IS emitted, carrying the previous
response's content (`AAA`, the content of `u1`) — the match is not
skipped.  Both contradict the claim (diagnostic, skip, continue), the
module docstring (`content: the matching file's contents (downloaded
from raw_url)`), and the handler's own evident intent. -/
theorem dump_missing_continue_bug :
    dumpAllMatches "github".data "q".data dumpFetch [dumpM2, dumpM1] =
      ([], [Diag.fetchingFile 1, Diag.fetchError "u2".data],
       .crashed .nameErrorR) ∧
    dumpAllMatches "github".data "q".data dumpFetch [dumpM1, dumpM2] =
      ([⟨"github".data, "q".data, "r1".data, "p1".data, "u1".data,
          "AAA".data⟩,
        ⟨"github".data, "q".data, "r2".data, "p2".data, "u2".data,
          "AAA".data⟩],
       [Diag.fetchingFile 1, Diag.fetchingFile 2,
        Diag.fetchError "u2".data, Diag.blankLine], .ok) := by
  constructor
  · decide
  · decide

/-- C2, counterexample.  Against the stable example backend (total 25
reported on pages 1, 2, 3 with 10 + 10 + 5 items, page size 10), the
claim says the scan performs exactly `ceil(25/10) = 3` page fetches.
The code performs 4: the `count <= len(hits)` comparison runs before a
page's links are consumed, so after the third page has supplied all 25
matches the scan wraps to page 1 and must fetch it once more to
observe completion. -/
theorem github_stable_example_cex :
    (githubRun exBackend 6 ghInit 0).fetches = 4 := by
  decide

/-- On a list of links that all parse to fresh, pairwise-new matches,
the result-link loop yields all of them in order and registers their
`raw_url`s (newest first) on top of `hits`. -/
theorem githubCollect_all_new :
    ∀ (us : List Str) (msl : List Match) (hits : List Str),
      us.map githubLinkMatch = msl.map some →
      (∀ m ∈ msl, m.raw_url ∉ hits) →
      (msl.map Match.raw_url).Nodup →
      githubCollect hits us =
        ((msl.map Match.raw_url).reverse ++ hits, msl) := by
  intro us
  induction us with
  | nil =>
    intro msl hits hcorr _ _
    cases msl with
    | nil => simp [githubCollect]
    | cons m msl' => simp at hcorr
  | cons u us' ih =>
    intro msl hits hcorr hfresh hnd
    cases msl with
    | nil => simp at hcorr
    | cons m msl' =>
      simp only [List.map_cons, List.cons.injEq] at hcorr
      obtain ⟨hm, hcorr'⟩ := hcorr
      have hnotin : m.raw_url ∉ hits := hfresh m (List.mem_cons_self _ _)
      have hhead : m.raw_url ∉ msl'.map Match.raw_url :=
        (List.nodup_cons.mp (by simpa using hnd)).1
      simp only [githubCollect, hm]
      rw [if_neg hnotin]
      rw [ih msl' (m.raw_url :: hits) hcorr'
        (fun m' hm' => by
          intro hmem
          rcases List.mem_cons.mp hmem with he | hmem'
          · exact hhead (he ▸ List.mem_map_of_mem Match.raw_url hm')
          · exact hfresh m' (List.mem_cons_of_mem _ hm') hmem')
        (List.nodup_cons.mp (by simpa using hnd)).2]
      simp [List.reverse_cons, List.append_assoc]

/-- Splitting a shifted `range`-map at `c`. -/
theorem range_map_split {α : Type} (f : ℕ → α) (a c m : ℕ) (h : c ≤ m) :
    (List.range c).map (fun j => f (a + j)) ++
      (List.range (m - c)).map (fun j => f (a + c + j)) =
    (List.range m).map (fun j => f (a + j)) := by
  conv_rhs => rw [show m = c + (m - c) by omega]
  rw [List.range_add, List.map_append, List.map_map]
  congr 1
  apply List.map_congr_left
  intro j _
  simp only [Function.comp_apply]
  congr 1
  omega

/-- The result-link loop on one page of a stable backend serving the
items `ms (b), ..., ms (b + L - 1)` (all still unseen) yields exactly
those items and stacks their `raw_url`s on the seen-set. -/
theorem stablePage_collect (ms : ℕ → Match) (urls : ℕ → Str) (N : ℕ)
    (hmatch : ∀ i, i < N → githubLinkMatch (urls i) = some (ms i))
    (hdist : ∀ i j, i < N → j < N → i ≠ j →
      (ms i).raw_url ≠ (ms j).raw_url)
    (b L : ℕ) (hbL : b + L ≤ N) :
    githubCollect
        (((List.range b).map (fun i => (ms i).raw_url)).reverse)
        ((List.range L).map (fun j => urls (b + j))) =
      ((((List.range L).map (fun j => ms (b + j))).map
          Match.raw_url).reverse ++
        ((List.range b).map (fun i => (ms i).raw_url)).reverse,
       (List.range L).map (fun j => ms (b + j))) := by
  apply githubCollect_all_new
  · rw [List.map_map, List.map_map]
    apply List.map_congr_left
    intro j hj
    simp only [Function.comp_apply]
    exact hmatch (b + j) (by have := List.mem_range.mp hj; omega)
  · intro m hm
    rcases List.mem_map.mp hm with ⟨j, hj, rfl⟩
    have hjL := List.mem_range.mp hj
    intro hmem
    rw [List.mem_reverse] at hmem
    rcases List.mem_map.mp hmem with ⟨i, hi, he⟩
    have hib := List.mem_range.mp hi
    exact hdist i (b + j) (by omega) (by omega) (by omega) he
  · rw [List.map_map]
    exact (List.nodup_range L).map_on (fun x hx y hy hfe => by
      by_contra hne
      have hxL := List.mem_range.mp hx
      have hyL := List.mem_range.mp hy
      exact hdist (b + x) (b + y) (by omega) (by omega) (by omega) hfe)

/-- Stacking a page's `raw_url`s on the seen-set extends the stable
seen-set representation from `b` items to `b + L` items. -/
theorem stable_hits_append (ms : ℕ → Match) (b L : ℕ) :
    ((((List.range L).map (fun j => ms (b + j))).map
        Match.raw_url).reverse ++
      ((List.range b).map (fun i => (ms i).raw_url)).reverse) =
    ((List.range (b + L)).map (fun i => (ms i).raw_url)).reverse := by
  rw [← List.reverse_append]
  congr 1
  rw [List.range_add, List.map_append, List.map_map, List.map_map]
  congr 1


/-- One full pass of a stable GitHub scan, started at page `p` with the
first `10 * (p - 1)` items already seen: the backend (a function of the
requested page only — stability) reports total `N` on every page and
serves item `ms i` on page `i / 10 + 1`; the scan fetches pages
`p, ..., ceil(N/10)` in order, yields the remaining items, writes the
missing-hits diagnostic when wrapping at the last page, re-fetches
page 1 and returns — `(ceil(N/10) - p) + 2` fetches in all. -/
theorem githubRun_stable_pass
    (pages : ℕ → GHPage) (ms : ℕ → Match) (urls : ℕ → Str) (N : ℕ)
    (_hN1 : 1 ≤ N) (hN : N ≤ 1000)
    (hmatch : ∀ i, i < N → githubLinkMatch (urls i) = some (ms i))
    (hdist : ∀ i j, i < N → j < N → i ≠ j →
      (ms i).raw_url ≠ (ms j).raw_url)
    (hpage : ∀ p, 1 ≤ p → p ≤ (N + 9) / 10 →
      (∃ h3 digits, (pages p).h3s = [h3] ∧
        (h3.links.any (fun l => strContains l timeoutLinkFragment)) = false ∧
        showingSearch h3.text = false ∧
        findCounts h3.text = [digits] ∧
        strContains h3.text zeroPhrase = false ∧
        countValue? digits = some N) ∧
      (pages p).resultLinks =
        (List.range (min 10 (N - 10 * (p - 1)))).map
          (fun j => urls (10 * (p - 1) + j))) :
    ∀ (k p i fuel : ℕ), p + k = (N + 9) / 10 → 1 ≤ p → k + 2 ≤ fuel →
      githubRun (fun _ q => pages q) fuel
        ⟨((List.range (10 * (p - 1))).map
            (fun i => (ms i).raw_url)).reverse, p, 0⟩ i =
        ⟨(List.range (N - 10 * (p - 1))).map
            (fun j => ms (10 * (p - 1) + j)),
         [Diag.missingHits (N - 10 * ((N + 9) / 10 - 1)) N],
         k + 2, .done⟩ := by
  intro k
  induction k with
  | zero =>
    intro p i fuel hpk hp1 hfuel
    obtain ⟨f1, rfl⟩ : ∃ f1, fuel = f1 + 1 + 1 := ⟨fuel - 2, by omega⟩
    have hT : p = (N + 9) / 10 := by omega
    have hb : 10 * (p - 1) < N := by omega
    have hL : min 10 (N - 10 * (p - 1)) = N - 10 * (p - 1) := by omega
    obtain ⟨⟨h3, digits, hh3s, hl1, hl2, hl3, hl4, hl5⟩, hlinks⟩ :=
      hpage p hp1 (by omega)
    have hpg : pages p = ⟨[h3],
        (List.range (min 10 (N - 10 * (p - 1)))).map
          (fun j => urls (10 * (p - 1) + j))⟩ := by
      rw [← hh3s, ← hlinks]
    have hstep1 := (githubStep_one_count
      ⟨((List.range (10 * (p - 1))).map
          (fun i => (ms i).raw_url)).reverse, p, 0⟩
      ((List.range (min 10 (N - 10 * (p - 1)))).map
        (fun j => urls (10 * (p - 1) + j)))
      h3 digits N hl1 hl2 hl3 hl4 hl5 hN).2.1
      (by simpa using hb) (by simpa using hT)
    simp only [List.length_reverse, List.length_map, List.length_range]
      at hstep1
    rw [stablePage_collect ms urls N hmatch hdist (10 * (p - 1))
      (min 10 (N - 10 * (p - 1))) (by omega)] at hstep1
    rw [← hpg] at hstep1
    rw [stable_hits_append ms (10 * (p - 1)) (min 10 (N - 10 * (p - 1))),
      hL, show 10 * (p - 1) + (N - 10 * (p - 1)) = N by omega] at hstep1
    simp only [] at hstep1
    obtain ⟨⟨h3b, digitsb, hh3sb, hb1, hb2, hb3, hb4, hb5⟩, hlinksb⟩ :=
      hpage 1 (le_refl 1) (by omega)
    have hpgb : pages 1 = ⟨[h3b],
        (List.range (min 10 (N - 10 * (1 - 1)))).map
          (fun j => urls (10 * (1 - 1) + j))⟩ := by
      rw [← hh3sb, ← hlinksb]
    have hstep2 := (githubStep_one_count
      ⟨((List.range N).map (fun i => (ms i).raw_url)).reverse, 1, 0⟩
      ((List.range (min 10 (N - 10 * (1 - 1)))).map
        (fun j => urls (10 * (1 - 1) + j)))
      h3b digitsb N hb1 hb2 hb3 hb4 hb5 hN).1 (by simp)
    rw [← hpgb] at hstep2
    rw [← hT]
    simp only [githubRun, hstep1, hstep2]
    simp
  | succ k ih =>
    intro p i fuel hpk hp1 hfuel
    obtain ⟨f1, rfl⟩ : ∃ f1, fuel = f1 + 1 := ⟨fuel - 1, by omega⟩
    have hpT : ¬ p = (N + 9) / 10 := by omega
    have hb : 10 * (p - 1) < N := by omega
    have hL : min 10 (N - 10 * (p - 1)) = 10 := by omega
    obtain ⟨⟨h3, digits, hh3s, hl1, hl2, hl3, hl4, hl5⟩, hlinks⟩ :=
      hpage p hp1 (by omega)
    have hpg : pages p = ⟨[h3],
        (List.range (min 10 (N - 10 * (p - 1)))).map
          (fun j => urls (10 * (p - 1) + j))⟩ := by
      rw [← hh3s, ← hlinks]
    have hstep1 := (githubStep_one_count
      ⟨((List.range (10 * (p - 1))).map
          (fun i => (ms i).raw_url)).reverse, p, 0⟩
      ((List.range (min 10 (N - 10 * (p - 1)))).map
        (fun j => urls (10 * (p - 1) + j)))
      h3 digits N hl1 hl2 hl3 hl4 hl5 hN).2.2
      (by simpa using hb) (by simpa using hpT)
    simp only [List.length_reverse, List.length_map, List.length_range]
      at hstep1
    rw [stablePage_collect ms urls N hmatch hdist (10 * (p - 1))
      (min 10 (N - 10 * (p - 1))) (by omega)] at hstep1
    rw [← hpg] at hstep1
    rw [stable_hits_append ms (10 * (p - 1)) (min 10 (N - 10 * (p - 1))),
      hL, show 10 * (p - 1) + 10 = 10 * (p + 1 - 1) by omega] at hstep1
    simp only [] at hstep1
    have hrec := ih (p + 1) (i + 1) f1 (by omega) (by omega) (by omega)
    simp only [githubRun, hstep1, hrec]
    simp only [List.nil_append, Nat.add_sub_cancel]
    have hsplit := range_map_split ms (10 * (p - 1)) 10
      (N - 10 * (p - 1)) (by omega)
    simp only [show N - 10 * (p - 1) - 10 = N - 10 * p from by omega,
      show 10 * (p - 1) + 10 = 10 * p from by omega] at hsplit
    rw [hsplit, show k + 2 + 1 = k + 1 + 2 from by omega]

/-- C2, as amended.  First conjunct, general: against every stable
(non-reordering) backend that reports the true total `N` (1 ≤ N ≤
1000) on each page and serves the `N` distinct matches in a fixed
order, 10 per page, the scan from the initial state yields exactly the
`N` matches, pairwise distinct by `raw_url`, and performs exactly
`ceil(N/10) + 1` page fetches — one more than the claimed
`ceil(N/10)`, because the `count <= len(hits)` comparison runs before
a page's links are consumed, so a final re-fetch of page 1 is needed
to observe completion — and then terminates normally.  Second
conjunct: the spec's 25-item example (pages of 10, 10, 5, page size
10) yields the 25 distinct matches across exactly 4 page fetches and
terminates. -/
theorem github_stable_scan_spec :
    (∀ (pages : ℕ → GHPage) (ms : ℕ → Match) (urls : ℕ → Str)
        (N fuel : ℕ),
      1 ≤ N → N ≤ 1000 →
      (∀ i, i < N → githubLinkMatch (urls i) = some (ms i)) →
      (∀ i j, i < N → j < N → i ≠ j →
        (ms i).raw_url ≠ (ms j).raw_url) →
      (∀ p, 1 ≤ p → p ≤ (N + 9) / 10 →
        (∃ h3 digits, (pages p).h3s = [h3] ∧
          (h3.links.any (fun l => strContains l timeoutLinkFragment))
            = false ∧
          showingSearch h3.text = false ∧
          findCounts h3.text = [digits] ∧
          strContains h3.text zeroPhrase = false ∧
          countValue? digits = some N) ∧
        (pages p).resultLinks =
          (List.range (min 10 (N - 10 * (p - 1)))).map
            (fun j => urls (10 * (p - 1) + j))) →
      (N + 9) / 10 + 1 ≤ fuel →
      githubRun (fun _ q => pages q) fuel ghInit 0 =
        ⟨(List.range N).map ms,
         [Diag.missingHits (N - 10 * ((N + 9) / 10 - 1)) N],
         (N + 9) / 10 + 1, .done⟩ ∧
      (((List.range N).map ms).map Match.raw_url).Nodup) ∧
    githubRun exBackend 6 ghInit 0 =
      ⟨(List.range 25).map exMatch, [Diag.missingHits 5 25], 4,
       RunEnd.done⟩ := by
  constructor
  · intro pages ms urls N fuel hN1 hN hmatch hdist hpage hfuel
    constructor
    · have hpass := githubRun_stable_pass pages ms urls N hN1 hN hmatch
        hdist hpage ((N + 9) / 10 - 1) 1 0 fuel (by omega) (le_refl 1)
        (by omega)
      simp only [show 10 * (1 - 1) = 0 from rfl, List.range_zero,
        List.map_nil, List.reverse_nil, Nat.sub_zero, Nat.zero_add]
        at hpass
      rw [show (N + 9) / 10 - 1 + 2 = (N + 9) / 10 + 1 from by omega]
        at hpass
      exact hpass
    · rw [List.map_map]
      exact (List.nodup_range N).map_on (fun x hx y hy hfe => by
        by_contra hne
        exact hdist x y (List.mem_range.mp hx) (List.mem_range.mp hy)
          hne hfe)
  · decide

/-- Witness for C2: the general theorem instantiated at a concrete
stable one-page backend with N = 5 — the scan yields the 5 matches in
2 = ceil(5/10) + 1 fetches and terminates. -/
theorem github_stable_scan_spec_witness :
    githubRun (fun _ _ => exPage5) 2 ghInit 0 =
      ⟨(List.range 5).map exMatch, [Diag.missingHits 5 5], 2,
       RunEnd.done⟩ ∧
    (((List.range 5).map exMatch).map Match.raw_url).Nodup := by
  have h := github_stable_scan_spec.1 (fun _ => exPage5) exMatch exUrl 5 2
    (by norm_num) (by norm_num)
    (by intro i hi; interval_cases i <;> decide)
    (by
      intro i j hi hj hne
      interval_cases i <;> interval_cases j <;>
        first
        | exact absurd rfl hne
        | decide)
    (by
      intro p hp1 hpT
      have hp : p = 1 := by omega
      subst hp
      refine ⟨⟨⟨[], "found 5 code results".data⟩, ['5'],
        rfl, rfl, rfl, rfl, rfl, rfl⟩, by decide⟩)
    (by norm_num)
  obtain ⟨h1, h2⟩ := h
  exact ⟨h1.trans (by decide), h2⟩

end Codetrawl
